import Mathlib

/-!
Verification of the human-in-the-loop review workflow engine of the
openclaw-meeting-assistant repository (`src/review/review_manager.py` and the
export gate of `src/pipeline.py`), against its natural-language specification.

Shallow embedding conventions:
* Python dicts holding item fields are association lists `Dict` with first-match
  lookup; values are kept opaque as strings, since every operation of the code
  (shallow merge, lookup, copy) treats values atomically.
* Nondeterministic inputs of the code (`uuid.uuid4()`, `datetime.now()`) are
  explicit parameters (`newId`, `now`).
* Python `deepcopy` is the identity on immutable Lean values.
* Fallible operations (`KeyError` on a required key, `raise RuntimeError`) are
  embedded with `Except`.
* `ReviewSession.summary_item` is an alias into the `items` list of the session in
  the Python code; it is embedded as an index `summary_idx` into `items`, so
  that in-place mutation of an item stays visible through the alias.
-/

/-- A Python dict of item fields: an association list with first-match lookup. -/
def Dict : Type := List (String × String)

instance : DecidableEq Dict := by
  unfold Dict
  infer_instance

instance : Membership (String × String) Dict := by
  unfold Dict
  infer_instance

/-- Lookup of a key, Python `d.get(k)` / `k in d`. -/
def Dict.lookup (d : Dict) (k : String) : Option String :=
  List.lookup k d

/-- Python truthiness of an optional dict argument (`if changes:`):
`None` and the empty dict are falsy. -/
def pyTruthyDict : Option Dict → Bool
  | some c => !(List.isEmpty c)
  | none => false

/-- Python truthiness of an optional string (the summary-key check):
`None` and the empty string are falsy. -/
def pyTruthyStr : Option String → Bool
  | some s => !(s == "")
  | none => false

/-- Python shallow dict merge `{**o, **c}`: keys of `o` in their order with
values overridden from `c` where present, followed by the entries of `c`
whose key does not occur in `o`. -/
def dictMerge (o c : Dict) : Dict :=
  (o.map (fun kv => (kv.1, (Dict.lookup c kv.1).getD kv.2)))
    ++ (c.filter (fun kv => (Dict.lookup o kv.1).isNone))

/-- Embedding of `ReviewableItem`: one reviewable fact with its review record.
Field types follow the Python attributes; `status` and `kind` stay strings
because the code never validates them against the literal sets. -/
structure ReviewableItem where
  id : String
  kind : String
  status : String
  original_data : Dict
  approved_data : Option Dict
  reviewed_by : Option String
  reviewed_at : Option String
  reject_reason : Option String
deriving DecidableEq

/-- Python `ReviewableItem.__init__(kind, data)`: fresh item in status `draft` with
all review fields unset; the generated `uuid` is the explicit `newId`. -/
def ReviewableItem.init (newId : String) (kind : String) (data : Dict) : ReviewableItem :=
  { id := newId
    kind := kind
    status := "draft"
    original_data := data
    approved_data := none
    reviewed_by := none
    reviewed_at := none
    reject_reason := none }

/-- Python `ReviewableItem.approve(reviewer, changes=None)`: unconditionally sets
status `approved`, stamps reviewer and timestamp, and computes
`approved_data` as `{**original_data, **changes}` when `changes` is truthy,
else as a copy of `original_data`. The code performs no status check. -/
def ReviewableItem.approve (item : ReviewableItem) (reviewer : String) (now : String)
    (changes : Option Dict) : ReviewableItem :=
  { item with
    status := "approved"
    reviewed_by := some reviewer
    reviewed_at := some now
    approved_data :=
      if pyTruthyDict changes then
        some (dictMerge item.original_data (changes.getD []))
      else
        some item.original_data }

/-- Python `ReviewableItem.reject(reviewer, reason=None)`: unconditionally sets status
`rejected`, stamps reviewer and timestamp, and records the reason. The code
performs no status check and does not clear `approved_data`. -/
def ReviewableItem.reject (item : ReviewableItem) (reviewer : String) (now : String)
    (reason : Option String) : ReviewableItem :=
  { item with
    status := "rejected"
    reviewed_by := some reviewer
    reviewed_at := some now
    reject_reason := reason }

/-- The `data` property: `self.approved_data or self.original_data` — Python
`or` falls through both on `None` and on an empty (falsy) dict. -/
def ReviewableItem.data (item : ReviewableItem) : Dict :=
  match item.approved_data with
  | some d => if List.isEmpty d then item.original_data else d
  | none => item.original_data

/-- The persisted form of one item, as written by `to_dict`: each key of the
JSON object is a field; `Option` on required fields models key absence, the
optional review fields conflate absence with JSON `null` exactly as
`d.get(...)` does. -/
structure ItemDict where
  id : Option String
  kind : Option String
  status : Option String
  original_data : Option Dict
  approved_data : Option Dict
  reviewed_by : Option String
  reviewed_at : Option String
  reject_reason : Option String
deriving DecidableEq

/-- Python `ReviewableItem.to_dict`: serialize every field. -/
def ReviewableItem.to_dict (item : ReviewableItem) : ItemDict :=
  { id := some item.id
    kind := some item.kind
    status := some item.status
    original_data := some item.original_data
    approved_data := item.approved_data
    reviewed_by := item.reviewed_by
    reviewed_at := item.reviewed_at
    reject_reason := item.reject_reason }

/-- Python required-key access: the value when the key is present, otherwise a
`KeyError`. -/
def reqField (v : Option α) (key : String) : Except String α :=
  match v with
  | some a => Except.ok a
  | none => Except.error ("KeyError: " ++ key)

/-- Python `ReviewableItem.from_dict`: the fields `kind`, `original_data`, `id`
and `status` are required (`KeyError` when absent); the remaining fields use
`d.get(...)` and default to `None`. No value of `status` or `kind` is
validated. The `uuid` drawn by the constructor is immediately overwritten by
the stored `id`, so it is not modelled. -/
def ReviewableItem.from_dict (d : ItemDict) : Except String ReviewableItem := do
  let kind ← reqField d.kind "kind"
  let odata ← reqField d.original_data "original_data"
  let itemId ← reqField d.id "id"
  let status ← reqField d.status "status"
  Except.ok
    { id := itemId
      kind := kind
      status := status
      original_data := odata
      approved_data := d.approved_data
      reviewed_by := d.reviewed_by
      reviewed_at := d.reviewed_at
      reject_reason := d.reject_reason }

/-- Embedding of `ReviewSession`. The Python attribute `summary_item` holds a
reference to one of the objects in `items`; here it is the index
`summary_idx` into `items`, which preserves the aliasing under per-item
updates. The `_state_path` attribute is file-system plumbing and is not part
of the review state. -/
structure ReviewSession where
  meeting_id : String
  title : String
  created_at : String
  items : List ReviewableItem
  summary_idx : Option Nat
deriving DecidableEq

/-- Python `ReviewSession.__init__(meeting_id, title)`: empty session; `created_at`
is the explicit `now` parameter standing for `datetime.now().isoformat()`. -/
def ReviewSession.init (meeting_id : String) (title : String) (now : String) : ReviewSession :=
  { meeting_id := meeting_id
    title := title
    created_at := now
    items := []
    summary_idx := none }

/-- Helper for `add_from_analysis`: one `ReviewableItem` per entry of a list,
with ids drawn from the explicit supply `fresh` starting at `base`. -/
def mkKindItems (kind : String) (ds : List Dict) (fresh : Nat → String) (base : Nat) :
    List ReviewableItem :=
  ds.enum.map (fun nd => ReviewableItem.init (fresh (base + nd.1)) kind nd.2)

/-- The analysis result consumed by `add_from_analysis`: each category key may
be absent. -/
structure Analysis where
  summary : Option String
  action_items : Option (List Dict)
  decisions : Option (List Dict)
  open_questions : Option (List Dict)

/-- Python `ReviewSession.add_from_analysis(analysis)`: appends a summary item
when the summary key is truthy (also resetting `summary_item` to it),
then one item per action item, decision and open question, in that order;
absent category keys contribute nothing (`analysis.get(k, [])`). The uuid
supply is the explicit `fresh`. -/
def ReviewSession.add_from_analysis (s : ReviewSession) (a : Analysis)
    (fresh : Nat → String) : ReviewSession :=
  let sumItems : List ReviewableItem :=
    if pyTruthyStr a.summary then
      [ReviewableItem.init (fresh 0) "summary" [("text", a.summary.getD "")]]
    else []
  let ais := mkKindItems "action_item" (a.action_items.getD []) fresh sumItems.length
  let decs := mkKindItems "decision" (a.decisions.getD []) fresh (sumItems.length + ais.length)
  let qs := mkKindItems "open_question" (a.open_questions.getD []) fresh
    (sumItems.length + ais.length + decs.length)
  { s with
    items := s.items ++ sumItems ++ ais ++ decs ++ qs
    summary_idx := if pyTruthyStr a.summary then some s.items.length else s.summary_idx }

/-- Python `get_pending`: the draft items, in item order. -/
def ReviewSession.get_pending (s : ReviewSession) : List ReviewableItem :=
  s.items.filter (fun i => i.status == "draft")

/-- Python `get_approved`: the approved items, in item order. -/
def ReviewSession.get_approved (s : ReviewSession) : List ReviewableItem :=
  s.items.filter (fun i => i.status == "approved")

/-- Python `get_rejected`: the rejected items, in item order. -/
def ReviewSession.get_rejected (s : ReviewSession) : List ReviewableItem :=
  s.items.filter (fun i => i.status == "rejected")

/-- Python `get_by_kind(kind)`: the items of a kind, in item order. -/
def ReviewSession.get_by_kind (s : ReviewSession) (kind : String) : List ReviewableItem :=
  s.items.filter (fun i => i.kind == kind)

/-- Python `get_by_id(item_id)`: the first item with the id, else `None`. -/
def ReviewSession.get_by_id (s : ReviewSession) (item_id : String) : Option ReviewableItem :=
  s.items.find? (fun i => i.id == item_id)

/-- Python `is_complete`: true when no item has status `draft`. -/
def ReviewSession.is_complete (s : ReviewSession) : Bool :=
  s.items.all (fun i => !(i.status == "draft"))

/-- Round a rational to the nearest integer, ties to even (the IEEE-754
default rounding). -/
def roundHalfEven (m : ℚ) : ℤ :=
  if m - ⌊m⌋ < 1/2 then ⌊m⌋
  else if 1/2 < m - ⌊m⌋ then ⌊m⌋ + 1
  else if ⌊m⌋ % 2 = 0 then ⌊m⌋ else ⌊m⌋ + 1

/-- The IEEE-754 binary64 double nearest to a nonnegative rational, as an
exact rational: the significand is rounded to 53 bits, ties to even, at the
binade of the argument. The exponent is unbounded, so overflow and
subnormals are not modelled; both are unreachable in `progress`, whose
rounded values lie in `[1/total, 200]` with `total` a Python list length
(below `2^63`), far inside the normal binary64 range. -/
def floatRound (q : ℚ) : ℚ :=
  if q ≤ 0 then 0
  else (roundHalfEven (q * (2:ℚ) ^ (52 - Int.log 2 q)) : ℚ) * (2:ℚ) ^ (Int.log 2 q - 52)

/-- The `progress` record. -/
structure Progress where
  total : Nat
  reviewed : Nat
  pending : Nat
  approved : Nat
  rejected : Nat
  percent : Nat
deriving DecidableEq

/-- Python `ReviewSession.progress`: counts over `items`. The percent is
`int(reviewed / total * 100)` evaluated in binary64 floating point: the
true division of the two ints is correctly rounded to a double, the
multiplication by 100 is correctly rounded again, and `int` truncates
toward zero (the floor, for these nonnegative values); `floatRound` gives
those correctly rounded doubles as exact rationals. -/
def ReviewSession.progress (s : ReviewSession) : Progress :=
  let total := s.items.length
  let reviewed := (s.items.filter (fun i => !(i.status == "draft"))).length
  { total := total
    reviewed := reviewed
    pending := total - reviewed
    approved := (s.items.filter (fun i => i.status == "approved")).length
    rejected := (s.items.filter (fun i => i.status == "rejected")).length
    percent :=
      if total == 0 then 100
      else (⌊floatRound (floatRound ((reviewed : ℚ) / (total : ℚ)) * 100)⌋).toNat }

/-- In-place mutation of the first item with a given id, as performed through
the alias returned by `get_by_id`; identity when no item matches. -/
def updateFirstById (items : List ReviewableItem) (item_id : String)
    (f : ReviewableItem → ReviewableItem) : List ReviewableItem :=
  match items with
  | [] => []
  | i :: rest =>
    if i.id == item_id then f i :: rest
    else i :: updateFirstById rest item_id f

/-- Python `approve_item(item_id, reviewer, changes)`: `get_by_id` then `approve` on
the found item; silently does nothing when the id is unknown (`if item:`). -/
def ReviewSession.approve_item (s : ReviewSession) (item_id : String) (reviewer : String)
    (now : String) (changes : Option Dict) : ReviewSession :=
  { s with items := (updateFirstById s.items item_id
      (fun i => i.approve reviewer now changes)) }

/-- Python `reject_item(item_id, reviewer, reason)`: `get_by_id` then `reject` on the
found item; silently does nothing when the id is unknown (`if item:`). -/
def ReviewSession.reject_item (s : ReviewSession) (item_id : String) (reviewer : String)
    (now : String) (reason : Option String) : ReviewSession :=
  { s with items := (updateFirstById s.items item_id
      (fun i => i.reject reviewer now reason)) }

/-- Python `approve_all(reviewer)`: approve every currently-draft item, in order. -/
def ReviewSession.approve_all (s : ReviewSession) (reviewer : String) (now : String) :
    ReviewSession :=
  { s with items := (s.items.map
      (fun i => if i.status == "draft" then i.approve reviewer now none else i)) }

/-- Python `get_approved_action_items`: data of approved action items, in item order. -/
def ReviewSession.get_approved_action_items (s : ReviewSession) : List Dict :=
  (s.items.filter (fun i => i.kind == "action_item" && i.status == "approved")).map
    ReviewableItem.data

/-- Python `get_approved_decisions`: data of approved decisions, in item order. -/
def ReviewSession.get_approved_decisions (s : ReviewSession) : List Dict :=
  (s.items.filter (fun i => i.kind == "decision" && i.status == "approved")).map
    ReviewableItem.data

/-- The item aliased by `summary_item` (see `summary_idx`). -/
def ReviewSession.summaryItem (s : ReviewSession) : Option ReviewableItem :=
  s.summary_idx.bind (fun n => s.items[n]?)

/-- Python `get_approved_summary`: the `text` field of the data of the summary
item when a summary item exists and is approved, else `None`. -/
def ReviewSession.get_approved_summary (s : ReviewSession) : Option String :=
  match s.summaryItem with
  | some it => if it.status == "approved" then Dict.lookup it.data "text" else none
  | none => none

/-- The persisted form of a session, as written by `save`: `Option` on each
top-level key models key absence. -/
structure SessionDict where
  meeting_id : Option String
  title : Option String
  created_at : Option String
  progress : Option Progress
  items : Option (List ItemDict)
deriving DecidableEq

/-- Python `ReviewSession.save`: serializes metadata, a `progress` snapshot and every
item via `to_dict`, in item order. The file-system side (path bookkeeping,
`json.dump`) is outside the embedding; the JSON text written is exactly this
record. -/
def ReviewSession.save (s : ReviewSession) : SessionDict :=
  { meeting_id := some s.meeting_id
    title := some s.title
    created_at := some s.created_at
    progress := some s.progress
    items := some (s.items.map ReviewableItem.to_dict) }

/-- The index of the last item of kind `summary`, which is where the `load`
loop leaves `summary_item` after overwriting it at each summary-kind item. -/
def lastSummaryIdx : List ReviewableItem → Option Nat
  | [] => none
  | i :: rest =>
    match lastSummaryIdx rest with
    | some n => some (n + 1)
    | none => if i.kind == "summary" then some 0 else none

/-- Python `ReviewSession.load`: the keys `meeting_id`, `title` and
`created_at` are required (`KeyError` when absent); the items list is read
with a `get` defaulting to empty, so its absence is silent; each item is
decoded by `from_dict`, and `summary_item` ends aliasing the last decoded
item of kind `summary`. The stored `progress` snapshot is never read. -/
def ReviewSession.load (d : SessionDict) : Except String ReviewSession := do
  let mid ← reqField d.meeting_id "meeting_id"
  let title ← reqField d.title "title"
  let ca ← reqField d.created_at "created_at"
  let items ← (d.items.getD []).mapM ReviewableItem.from_dict
  Except.ok
    { meeting_id := mid
      title := title
      created_at := ca
      items := items
      summary_idx := lastSummaryIdx items }

/-- The review-incomplete failure of `MeetingPipeline.export`, carrying the
pending count interpolated into the `RuntimeError` message. -/
inductive ExportError where
  | reviewIncomplete (pending : Nat)
deriving DecidableEq

/-- The approved content assembled by the export sub-steps of
`MeetingPipeline.export` (the `analysis_approved` mapping handed to the
knowledge store, whose `summary` key falls back to the empty string). -/
structure ExportData where
  summary : String
  action_items : List Dict
  decisions : List Dict
  open_questions : List Dict
deriving DecidableEq

/-- Python `MeetingPipeline.export(session)`: raises review-incomplete with the
current pending count unless `session.is_complete`; otherwise assembles the
approved content through the session accessors. The export sub-steps are
I/O (task tracker, document write, knowledge store) and never write any
status of any item; accordingly the embedding is a read-only function of the
session. -/
def MeetingPipeline.export' (session : ReviewSession) : Except ExportError ExportData :=
  if session.is_complete then
    Except.ok
      { summary := (session.get_approved_summary).getD ""
        action_items := session.get_approved_action_items
        decisions := session.get_approved_decisions
        open_questions :=
          ((session.get_by_kind "open_question").filter
            (fun i => i.status == "approved")).map ReviewableItem.data }
  else
    Except.error (ExportError.reviewIncomplete (session.progress.pending))

/-! ### Helper lemmas -/

theorem lookup_map_override (o c : Dict) (k : String) :
    List.lookup k (o.map (fun kv => (kv.1, (List.lookup kv.1 c).getD kv.2)))
      = (List.lookup k o).map (fun v => (List.lookup k c).getD v) := by
  induction o with
  | nil => rfl
  | cons kv o ih =>
    simp only [List.map_cons, List.lookup]
    cases h : k == kv.1 with
    | true =>
      have hk : k = kv.1 := by simpa using h
      subst hk
      simp
    | false => simpa [h] using ih

theorem lookup_filter_keep (c : Dict) (p : String × String → Bool) (k : String)
    (h : ∀ v, p (k, v) = true) :
    List.lookup k (c.filter p) = List.lookup k c := by
  induction c with
  | nil => rfl
  | cons kv c ih =>
    by_cases hk : k = kv.1
    · subst hk
      have : p kv = true := by
        have := h kv.2
        simpa using this
      simp [List.filter, this, List.lookup]
    · have hbeq : (k == kv.1) = false := by simpa using hk
      cases hp : p kv with
      | true => simp [List.filter, hp, List.lookup, hbeq, ih]
      | false => simp [List.filter, hp, List.lookup, hbeq, ih]

theorem lookup_map_override_none (o c : Dict) (k : String) (h : List.lookup k o = none) :
    List.lookup k (o.map (fun kv => (kv.1, (List.lookup kv.1 c).getD kv.2))) = none := by
  rw [lookup_map_override, h]
  rfl

theorem lookup_append_pairs (l₁ l₂ : List (String × String)) (k : String) :
    List.lookup k (l₁ ++ l₂)
      = match List.lookup k l₁ with
        | some v => some v
        | none => List.lookup k l₂ := by
  induction l₁ with
  | nil => rfl
  | cons kv l₁ ih =>
    simp only [List.cons_append, List.lookup]
    cases h : k == kv.1 with
    | true => rfl
    | false => simpa [h] using ih

/-- The key property of the Python shallow merge `{**o, **c}`: lookup prefers
`c` and falls back to `o`. -/
theorem Dict.lookup_dictMerge (o c : Dict) (k : String) :
    Dict.lookup (dictMerge o c) k
      = match Dict.lookup c k with
        | some v => some v
        | none => Dict.lookup o k := by
  simp only [dictMerge, Dict.lookup]
  rw [lookup_append_pairs, lookup_map_override]
  cases ho : List.lookup k o with
  | some v =>
    cases hc : List.lookup k c with
    | some w => simp [hc]
    | none => simp [hc]
  | none =>
    rw [lookup_filter_keep]
    · cases hc : List.lookup k c <;> rfl
    · intro v
      simp [ho]

theorem length_filter_not_add_filter (l : List ReviewableItem) :
    (l.filter (fun i => !(i.status == "draft"))).length
      + (l.filter (fun i => i.status == "draft")).length = l.length := by
  induction l with
  | nil => rfl
  | cons i l ih =>
    cases h : i.status == "draft" with
    | true => simp [List.filter, h, ← ih]; omega
    | false => simp [List.filter, h, ← ih]; omega

theorem progress_pending_eq_get_pending (s : ReviewSession) :
    s.progress.pending = s.get_pending.length := by
  have h := length_filter_not_add_filter s.items
  simp only [ReviewSession.progress, ReviewSession.get_pending]
  omega

theorem is_complete_iff_pending_zero (s : ReviewSession) :
    s.is_complete = true ↔ s.progress.pending = 0 := by
  rw [progress_pending_eq_get_pending]
  simp only [ReviewSession.is_complete, ReviewSession.get_pending, List.all_eq_true,
    List.length_eq_zero, List.filter_eq_nil_iff]
  constructor
  · intro h i hi
    have := h i hi
    simpa using this
  · intro h i hi
    have := h i hi
    simpa using this

theorem updateFirstById_not_found (l : List ReviewableItem) (item_id : String)
    (f : ReviewableItem → ReviewableItem)
    (h : l.find? (fun i => i.id == item_id) = none) :
    updateFirstById l item_id f = l := by
  induction l with
  | nil => rfl
  | cons i l ih =>
    rw [List.find?_cons] at h
    cases hid : i.id == item_id with
    | true => simp [hid] at h
    | false =>
      simp only [hid] at h
      simp [updateFirstById, hid, ih h]

theorem lastSummaryIdx_some (l : List ReviewableItem) (n : Nat)
    (h : lastSummaryIdx l = some n) :
    ∃ i, l[n]? = some i ∧ i.kind = "summary" := by
  induction l generalizing n with
  | nil => simp [lastSummaryIdx] at h
  | cons i l ih =>
    simp only [lastSummaryIdx] at h
    cases hl : lastSummaryIdx l with
    | some m =>
      rw [hl] at h
      cases h
      obtain ⟨j, hj, hk⟩ := ih m hl
      exact ⟨j, by simpa using hj, hk⟩
    | none =>
      rw [hl] at h
      cases hk : i.kind == "summary" with
      | true =>
        rw [hk] at h
        cases h
        exact ⟨i, by simp, by simpa using hk⟩
      | false => rw [hk] at h; cases h

theorem lastSummaryIdx_none (l : List ReviewableItem)
    (h : lastSummaryIdx l = none) : ∀ i ∈ l, i.kind ≠ "summary" := by
  induction l with
  | nil => intro i hi; cases hi
  | cons i l ih =>
    simp only [lastSummaryIdx] at h
    cases hl : lastSummaryIdx l with
    | some m => rw [hl] at h; cases h
    | none =>
      rw [hl] at h
      cases hk : i.kind == "summary" with
      | true => rw [hk] at h; cases h
      | false =>
        intro j hj
        rcases List.mem_cons.mp hj with hj | hj
        · subst hj; simpa using hk
        · exact ih hl j hj

theorem mem_of_length_le_one {α : Type} (l : List α) (h : l.length ≤ 1) :
    ∀ a ∈ l, ∀ b ∈ l, a = b := by
  match l with
  | [] => intro a ha; cases ha
  | [x] =>
    intro a ha b hb
    rw [List.mem_singleton] at ha hb
    rw [ha, hb]
  | x :: y :: l => simp at h

theorem from_dict_to_dict (i : ReviewableItem) :
    ReviewableItem.from_dict i.to_dict = Except.ok i := rfl

theorem mapM_from_dict_to_dict (l : List ReviewableItem) :
    (l.map ReviewableItem.to_dict).mapM ReviewableItem.from_dict = Except.ok l := by
  induction l with
  | nil => rfl
  | cons i l ih =>
    rw [List.map_cons, List.mapM_cons, from_dict_to_dict, ih]
    rfl

theorem mem_mkKindItems_kind (kind : String) (ds : List Dict) (fresh : Nat → String)
    (base : Nat) (i : ReviewableItem) (h : i ∈ mkKindItems kind ds fresh base) :
    i.kind = kind := by
  simp only [mkKindItems, List.mem_map] at h
  obtain ⟨nd, _, rfl⟩ := h
  rfl

theorem length_mkKindItems (kind : String) (ds : List Dict) (fresh : Nat → String)
    (base : Nat) : (mkKindItems kind ds fresh base).length = ds.length := by
  simp [mkKindItems, List.enum_length]

/-! ### Floating-point lemmas for `progress.percent` -/

/-- The rounding error of ties-to-even integer rounding is at most one half. -/
theorem roundHalfEven_err (m : ℚ) : |(roundHalfEven m : ℚ) - m| ≤ 1/2 := by
  have h1 : (⌊m⌋ : ℚ) ≤ m := Int.floor_le m
  have h2 : m < ⌊m⌋ + 1 := Int.lt_floor_add_one m
  unfold roundHalfEven
  split_ifs with ha hb hc
  · rw [abs_le]; constructor <;> linarith
  · rw [abs_le]; push_cast; constructor <;> linarith
  · rw [abs_le]; constructor <;> linarith
  · rw [abs_le]; push_cast; constructor <;> linarith

/-- Correct rounding at 53 significand bits has relative error at most
`2 ^ (-53)`. -/
theorem floatRound_err {q : ℚ} (hq : 0 < q) : |floatRound q - q| ≤ q / 2 ^ 53 := by
  rw [floatRound, if_neg (not_le.mpr hq)]
  set e := Int.log 2 q with he
  have hne : (2:ℚ) ≠ 0 := by norm_num
  have hupos : (0:ℚ) < (2:ℚ) ^ (e - 52) := by positivity
  have h2 : |(roundHalfEven (q * (2:ℚ) ^ (52 - e)) : ℚ) * (2:ℚ) ^ (e - 52) - q|
      ≤ 1/2 * (2:ℚ) ^ (e - 52) := by
    calc |(roundHalfEven (q * (2:ℚ) ^ (52 - e)) : ℚ) * (2:ℚ) ^ (e - 52) - q|
        = |((roundHalfEven (q * (2:ℚ) ^ (52 - e)) : ℚ) - q * (2:ℚ) ^ (52 - e))
            * (2:ℚ) ^ (e - 52)| := by
          rw [sub_mul, mul_assoc, ← zpow_add₀ hne]
          norm_num
      _ = |(roundHalfEven (q * (2:ℚ) ^ (52 - e)) : ℚ) - q * (2:ℚ) ^ (52 - e)|
            * (2:ℚ) ^ (e - 52) := by
          rw [abs_mul, abs_of_pos hupos]
      _ ≤ 1/2 * (2:ℚ) ^ (e - 52) :=
          mul_le_mul_of_nonneg_right (roundHalfEven_err _) (le_of_lt hupos)
  refine le_trans h2 ?_
  have hlog : (2:ℚ) ^ e ≤ q := by
    have h4 := Int.zpow_log_le_self (b := 2) (r := q) one_lt_two hq
    rw [← he] at h4
    simpa using h4
  have hrw : (1:ℚ)/2 * (2:ℚ) ^ (e - 52) = (2:ℚ) ^ e / 2 ^ 53 := by
    rw [zpow_sub₀ hne]
    rw [show ((2:ℚ) ^ (52:ℤ)) = ((2:ℚ) ^ (52:ℕ)) from zpow_natCast 2 52]
    ring
  rw [hrw]
  gcongr

/-- The rounded double of a positive rational is positive. -/
theorem floatRound_pos {q : ℚ} (hq : 0 < q) : 0 < floatRound q := by
  have h1 := (abs_le.mp (floatRound_err hq)).1
  have h2 : q / 2 ^ 53 < q := div_lt_self hq (by norm_num)
  linarith

/-- The double computation underlying `percent` stays within one of the exact
truncated percentage: its floor is nonnegative and differs from
`⌊r / t * 100⌋` by at most one. -/
theorem floatPercentExpr_near (r t : ℕ) (ht : 0 < t) (hrt : r ≤ t) :
    0 ≤ ⌊floatRound (floatRound ((r:ℚ) / t) * 100)⌋
    ∧ |⌊floatRound (floatRound ((r:ℚ) / t) * 100)⌋ - ⌊(r:ℚ) / t * 100⌋| ≤ 1 := by
  rcases Nat.eq_zero_or_pos r with hr0 | hr
  · subst hr0
    norm_num [floatRound]
  · have htq : (0:ℚ) < t := by exact_mod_cast ht
    set q : ℚ := (r:ℚ) / t with hqdef
    have hq : 0 < q := div_pos (by exact_mod_cast hr) htq
    have hq1 : q ≤ 1 := by
      rw [hqdef, div_le_one htq]
      exact_mod_cast hrt
    set x := floatRound q with hxdef
    have hx := floatRound_err hq
    have hxb := abs_le.mp hx
    have hx1 : |x - q| ≤ 1/1000000 := by
      refine le_trans hx (le_trans ?_ (by norm_num : (1:ℚ)/2^53 ≤ 1/1000000))
      gcongr
    have hxup : x ≤ 2 := by
      have := abs_le.mp hx1
      linarith
    have hxpos : 0 < x := floatRound_pos hq
    have h100 : 0 < x * 100 := by positivity
    set y := floatRound (x * 100) with hydef
    have hy := floatRound_err h100
    have hy1 : |y - x * 100| ≤ 1/1000 := by
      refine le_trans hy ?_
      have hh : x * 100 / 2 ^ 53 ≤ 2 * 100 / 2 ^ 53 := by gcongr
      refine le_trans hh (by norm_num)
    have hnear : |y - q * 100| ≤ 1/2 := by
      have hb1 := abs_le.mp hx1
      have hb2 := abs_le.mp hy1
      rw [abs_le]
      constructor <;> linarith
    have hfl1 : ⌊y⌋ ≤ ⌊q * 100⌋ + 1 := by
      have h6 : y ≤ q * 100 + 1 := by
        have := abs_le.mp hnear
        linarith
      have h7 := Int.floor_mono h6
      rw [show (1:ℚ) = ((1:ℤ):ℚ) by norm_num, Int.floor_add_int] at h7
      exact h7
    have hfl2 : ⌊q * 100⌋ - 1 ≤ ⌊y⌋ := by
      have h8 : q * 100 - 1 ≤ y := by
        have := abs_le.mp hnear
        linarith
      have h9 := Int.floor_mono h8
      rw [show (1:ℚ) = ((1:ℤ):ℚ) by norm_num, Int.floor_sub_int] at h9
      exact h9
    refine ⟨Int.floor_nonneg.mpr (le_of_lt (floatRound_pos h100)), ?_⟩
    rw [abs_le]
    constructor <;> omega

/-- Uniqueness of the binade: an exponent bracketing `q` is its `Int.log 2`. -/
theorem log2_eq_of_between (q : ℚ) (e : ℤ) (hq : 0 < q)
    (h1 : (2:ℚ) ^ e ≤ q) (h2 : q < (2:ℚ) ^ (e + 1)) : Int.log 2 q = e := by
  have hle := (Int.zpow_le_iff_le_log (b := 2) one_lt_two hq).mp (by simpa using h1)
  have hlt := (Int.lt_zpow_iff_log_lt (b := 2) one_lt_two hq).mp (by simpa using h2)
  omega

/-- Evaluation rule for `floatRound` once the binade is known. -/
theorem floatRound_eval (q : ℚ) (e : ℤ) (hq : 0 < q)
    (h1 : (2:ℚ) ^ e ≤ q) (h2 : q < (2:ℚ) ^ (e + 1)) :
    floatRound q = (roundHalfEven (q * (2:ℚ) ^ (52 - e)) : ℚ) * (2:ℚ) ^ (e - 52) := by
  rw [floatRound, if_neg (not_le.mpr hq), log2_eq_of_between q e hq h1 h2]

/-- Evaluation rule for `roundHalfEven` when the fraction is below one half. -/
theorem roundHalfEven_eq_low (m : ℚ) (f : ℤ) (hf : ⌊m⌋ = f) (h : m - f < 1/2) :
    roundHalfEven m = f := by
  rw [roundHalfEven, hf, if_pos h]

/-- The double nearest to 2/3. -/
theorem floatRound_two_thirds :
    floatRound ((2:ℚ)/3) = (6004799503160661:ℚ) / 9007199254740992 := by
  rw [floatRound_eval ((2:ℚ)/3) (-1) (by norm_num) (by norm_num) (by norm_num)]
  have hfl : ⌊(2:ℚ)/3 * (2:ℚ) ^ (52 - (-1:ℤ))⌋ = 6004799503160661 := by
    rw [Int.floor_eq_iff]
    constructor <;> norm_num
  have hlow : (2:ℚ)/3 * (2:ℚ) ^ (52 - (-1:ℤ)) - (6004799503160661:ℤ) < 1/2 := by
    norm_num
  rw [roundHalfEven_eq_low _ _ hfl hlow]
  norm_num

/-- The double nearest to 100 times the double nearest to 2/3. -/
theorem floatRound_two_thirds_scaled :
    floatRound ((6004799503160661:ℚ) / 9007199254740992 * 100)
      = (2345624805922133:ℚ) / 35184372088832 := by
  rw [floatRound_eval ((6004799503160661:ℚ) / 9007199254740992 * 100) 6
    (by norm_num) (by norm_num) (by norm_num)]
  have hfl : ⌊(6004799503160661:ℚ) / 9007199254740992 * 100 * (2:ℚ) ^ (52 - (6:ℤ))⌋
      = 4691249611844266 := by
    rw [Int.floor_eq_iff]
    constructor <;> norm_num
  have hlow : (6004799503160661:ℚ) / 9007199254740992 * 100 * (2:ℚ) ^ (52 - (6:ℤ))
      - (4691249611844266:ℤ) < 1/2 := by
    norm_num
  rw [roundHalfEven_eq_low _ _ hfl hlow]
  norm_num

/-- Truncating the double computation of `2 / 3 * 100` yields 66. -/
theorem floor_two_thirds_result : ⌊(2345624805922133:ℚ) / 35184372088832⌋ = 66 := by
  rw [Int.floor_eq_iff]
  constructor <;> norm_num

/-- The double nearest to 29/100. -/
theorem floatRound_29_100 :
    floatRound ((29:ℚ)/100) = (5224175567749775:ℚ) / 18014398509481984 := by
  rw [floatRound_eval ((29:ℚ)/100) (-2) (by norm_num) (by norm_num) (by norm_num)]
  have hfl : ⌊(29:ℚ)/100 * (2:ℚ) ^ (52 - (-2:ℤ))⌋ = 5224175567749775 := by
    rw [Int.floor_eq_iff]
    constructor <;> norm_num
  have hlow : (29:ℚ)/100 * (2:ℚ) ^ (52 - (-2:ℤ)) - (5224175567749775:ℤ) < 1/2 := by
    norm_num
  rw [roundHalfEven_eq_low _ _ hfl hlow]
  norm_num

/-- The double nearest to 100 times the double nearest to 29/100; it lies just
below 29. -/
theorem floatRound_29_100_scaled :
    floatRound ((5224175567749775:ℚ) / 18014398509481984 * 100)
      = (8162774324609023:ℚ) / 281474976710656 := by
  rw [floatRound_eval ((5224175567749775:ℚ) / 18014398509481984 * 100) 4
    (by norm_num) (by norm_num) (by norm_num)]
  have hfl : ⌊(5224175567749775:ℚ) / 18014398509481984 * 100 * (2:ℚ) ^ (52 - (4:ℤ))⌋
      = 8162774324609023 := by
    rw [Int.floor_eq_iff]
    constructor <;> norm_num
  have hlow : (5224175567749775:ℚ) / 18014398509481984 * 100 * (2:ℚ) ^ (52 - (4:ℤ))
      - (8162774324609023:ℤ) < 1/2 := by
    norm_num
  rw [roundHalfEven_eq_low _ _ hfl hlow]
  norm_num

/-- The float computation can even fall below the exact floor: at 29 of 100
reviewed the code computes 28 although `29 / 100 * 100` is exactly 29. -/
theorem float_truncation_drop :
    ⌊floatRound (floatRound ((29:ℚ)/100) * 100)⌋ = 28
    ∧ ⌊(29:ℚ)/100 * 100⌋ = 29 := by
  constructor
  · rw [floatRound_29_100, floatRound_29_100_scaled, Int.floor_eq_iff]
    constructor <;> norm_num
  · norm_num

/-- The percent expression at 2 reviewed of 3: the code computes 66. -/
theorem percent_two_thirds :
    (⌊floatRound (floatRound ((2:ℚ)/3) * 100)⌋).toNat = 66 := by
  rw [floatRound_two_thirds, floatRound_two_thirds_scaled, floor_two_thirds_result]
  rfl

/-- One approve/reject call made in the disciplined way the spec prescribes:
only while the item is still in status `draft`. -/
inductive GuardedStep : ReviewableItem → ReviewableItem → Prop where
  | approve (i : ReviewableItem) (r t : String) (c : Option Dict)
      (h : i.status = "draft") : GuardedStep i (i.approve r t c)
  | reject (i : ReviewableItem) (r t : String) (reason : Option String)
      (h : i.status = "draft") : GuardedStep i (i.reject r t reason)

/-- Reachability by a sequence of guarded approve/reject calls. -/
inductive GuardedReach : ReviewableItem → ReviewableItem → Prop where
  | refl (i : ReviewableItem) : GuardedReach i i
  | tail {i j k : ReviewableItem} : GuardedReach i j → GuardedStep j k → GuardedReach i k

/-! ### Concrete fixtures used by witnesses and counterexamples -/

/-- A draft action item. -/
def exDraftAction : ReviewableItem :=
  ReviewableItem.init "a1" "action_item" [("description", "Write budget plan"), ("assignee", "Anna")]

/-- The draft action item after a first approval. -/
def exApprovedAction : ReviewableItem := exDraftAction.approve "Max" "t1" none

/-- A rejected decision. -/
def exRejectedDecision : ReviewableItem :=
  (ReviewableItem.init "b2" "decision" [("description", "Ship in March")]).reject
    "Eva" "t1" (some "duplicate")

/-- A draft open question. -/
def exDraftQuestion : ReviewableItem :=
  ReviewableItem.init "c3" "open_question" [("question", "Who owns QA?")]

/-- An approved summary item. -/
def exApprovedSummary : ReviewableItem :=
  (ReviewableItem.init "d4" "summary" [("text", "All good")]).approve "Max" "t2" none

/-- An approved open question. -/
def exApprovedQuestion : ReviewableItem :=
  (ReviewableItem.init "e5" "open_question" [("question", "Budget?")]).approve "Max" "t3" none

/-- A session mixing one approved, one rejected and one draft item. -/
def exMixedSession : ReviewSession :=
  { meeting_id := "m1"
    title := "Weekly"
    created_at := "t0"
    items := [exApprovedAction, exRejectedDecision, exDraftQuestion]
    summary_idx := none }

/-- A fully reviewed session with a summary item, an approved action item, a
rejected decision and an approved open question. -/
def exFullSession : ReviewSession :=
  { meeting_id := "m2"
    title := "Planning"
    created_at := "t0"
    items := [exApprovedSummary, exApprovedAction, exRejectedDecision, exApprovedQuestion]
    summary_idx := some 0 }

/-- A session whose only item is still a draft. -/
def exDraftSession : ReviewSession :=
  { meeting_id := "m3"
    title := "Retro"
    created_at := "t0"
    items := [exDraftQuestion]
    summary_idx := none }

/-! ### Claim C1 -/

/-- C1 counterexample: `approve` on an already-approved item does not fail and
does not leave the item unchanged — the second call overwrites
`reviewed_by` (and `reviewed_at`), so terminal states are not sticky. -/
theorem approve_terminal_overwrites_counterexample :
    exApprovedAction.status = "approved"
    ∧ (exApprovedAction.approve "Eva" "t2" none).status = "approved"
    ∧ (exApprovedAction.approve "Eva" "t2" none).reviewed_by = some "Eva"
    ∧ exApprovedAction.reviewed_by = some "Max" := by
  refine ⟨rfl, rfl, rfl, rfl⟩

/-- C1 amended: `approve` and `reject` perform no status check and never fail;
they unconditionally overwrite the review fields, so a repeated call equals a
fresh call on the original item (last writer wins) and always succeeds, from
any status. -/
theorem approve_reject_unconditional (i : ReviewableItem) (r₁ t₁ r₂ t₂ : String)
    (c₁ c₂ : Option Dict) (re₁ re₂ : Option String) :
    ((i.approve r₁ t₁ c₁).approve r₂ t₂ c₂ = i.approve r₂ t₂ c₂)
    ∧ ((i.reject r₁ t₁ re₁).reject r₂ t₂ re₂ = i.reject r₂ t₂ re₂)
    ∧ (i.approve r₁ t₁ c₁).status = "approved"
    ∧ (i.reject r₁ t₁ re₁).status = "rejected" := by
  refine ⟨rfl, rfl, rfl, rfl⟩

/-! ### Claim C5 -/

/-- C5 counterexample: the item obtained by `approve` then `reject` (a sequence
of approve/reject calls from construction, which the unguarded code permits)
has status `rejected` while `approved_data` is still non-null, violating the
claimed invariant. -/
theorem approve_then_reject_invariant_counterexample :
    ((exDraftAction.approve "Max" "t1" none).reject "Eva" "t2" (some "duplicate")).status
        = "rejected"
    ∧ ((exDraftAction.approve "Max" "t1" none).reject "Eva" "t2"
        (some "duplicate")).approved_data ≠ none := by
  constructor
  · rfl
  · intro h
    cases h

/-- C5 amended: for every item reachable from construction by approve/reject
calls each made while the item is still in status `draft` (the discipline
the spec prescribes; the code itself does not enforce it), `approved_data`
is non-null iff the status is `approved`, `reviewed_by` and `reviewed_at`
are null iff the status is `draft`, and `original_data` is the construction
value. -/
theorem guarded_reach_invariant (newId kind : String) (d : Dict) (i : ReviewableItem)
    (h : GuardedReach (ReviewableItem.init newId kind d) i) :
    (i.approved_data ≠ none ↔ i.status = "approved")
    ∧ (i.reviewed_by = none ↔ i.status = "draft")
    ∧ (i.reviewed_at = none ↔ i.status = "draft")
    ∧ i.original_data = d := by
  induction h with
  | refl =>
    refine ⟨?_, ?_, ?_, rfl⟩ <;> simp [ReviewableItem.init]
  | @tail j k _ step ih =>
    obtain ⟨ih₁, ih₂, ih₃, ih₄⟩ := ih
    cases step with
    | approve r t c hdraft =>
      refine ⟨?_, ?_, ?_, ih₄⟩
      · simp only [ReviewableItem.approve]
        split <;> simp
      · simp [ReviewableItem.approve]
      · simp [ReviewableItem.approve]
    | reject r t reason hdraft =>
      have hnone : j.approved_data = none := by
        by_contra hne
        have := ih₁.mp hne
        rw [hdraft] at this
        exact absurd this (by decide)
      refine ⟨?_, ?_, ?_, ih₄⟩ <;>
        simp [ReviewableItem.reject, hnone]

/-- C5 amended, witness: a single guarded approval of a concrete draft item
satisfies the invariant. -/
theorem guarded_reach_invariant_witness :
    (exApprovedAction.approved_data ≠ none ↔ exApprovedAction.status = "approved")
    ∧ (exApprovedAction.reviewed_by = none ↔ exApprovedAction.status = "draft")
    ∧ (exApprovedAction.reviewed_at = none ↔ exApprovedAction.status = "draft")
    ∧ exApprovedAction.original_data
        = [("description", "Write budget plan"), ("assignee", "Anna")] :=
  guarded_reach_invariant "a1" "action_item"
    [("description", "Write budget plan"), ("assignee", "Anna")] exApprovedAction
    (GuardedReach.tail (GuardedReach.refl exDraftAction)
      (GuardedStep.approve exDraftAction "Max" "t1" none rfl))

/-! ### Claim C6 -/

/-- C6: approving a draft item stamps status, reviewer and timestamp, and
computes `approved_data` as the shallow merge of the edits over
`original_data`: every key of the edits maps to the edits value, every other
key keeps its original value, and with no edits `approved_data` equals
`original_data`. -/
theorem approve_merges_edits (i : ReviewableItem) (r t : String) (c : Dict)
    (h : i.status = "draft") :
    (i.approve r t (some c)).status = "approved"
    ∧ (i.approve r t (some c)).reviewed_by = some r
    ∧ (i.approve r t (some c)).reviewed_at = some t
    ∧ (∃ ad, (i.approve r t (some c)).approved_data = some ad
        ∧ (∀ k v, Dict.lookup c k = some v → Dict.lookup ad k = some v)
        ∧ (∀ k, Dict.lookup c k = none →
            Dict.lookup ad k = Dict.lookup i.original_data k))
    ∧ (i.approve r t none).approved_data = some i.original_data := by
  refine ⟨rfl, rfl, rfl, ?_, rfl⟩
  cases hc : c.isEmpty with
  | true =>
    refine ⟨i.original_data, ?_, ?_, ?_⟩
    · simp [ReviewableItem.approve, pyTruthyDict, hc]
    · intro k v hkv
      rw [List.isEmpty_iff] at hc
      subst hc
      cases hkv
    · intro k _
      rfl
  | false =>
    refine ⟨dictMerge i.original_data c, ?_, ?_, ?_⟩
    · simp [ReviewableItem.approve, pyTruthyDict, hc]
    · intro k v hkv
      rw [Dict.lookup_dictMerge, hkv]
    · intro k hk
      rw [Dict.lookup_dictMerge, hk]

/-- C6 witness: approving the concrete draft action item with a deadline edit
yields the edited deadline while the unedited description is preserved. -/
theorem approve_merges_edits_witness :
    exDraftAction.status = "draft"
    ∧ (exDraftAction.approve "Max" "t1" (some [("deadline", "2026-03-01")])).status
        = "approved"
    ∧ (∃ ad,
        (exDraftAction.approve "Max" "t1"
            (some [("deadline", "2026-03-01")])).approved_data = some ad
        ∧ Dict.lookup ad "deadline" = some "2026-03-01"
        ∧ Dict.lookup ad "description" = some "Write budget plan") := by
  have h := approve_merges_edits exDraftAction "Max" "t1"
    [("deadline", "2026-03-01")] rfl
  obtain ⟨h₁, _, _, ⟨ad, had, hin, hout⟩, _⟩ := h
  refine ⟨rfl, h₁, ad, had, ?_, ?_⟩
  · exact hin "deadline" "2026-03-01" rfl
  · rw [hout "description" rfl]
    rfl

/-! ### Claim C8 -/

/-- C8 counterexample: dispatch to an id that belongs to no item of the
session completes without any failure and is a silent no-op — the session is
returned unchanged rather than a not-found condition being surfaced. -/
theorem unknown_id_silent_noop_counterexample :
    exDraftSession.get_by_id "zzz" = none
    ∧ exDraftSession.approve_item "zzz" "Max" "t9" none = exDraftSession
    ∧ exDraftSession.reject_item "zzz" "Max" "t9" (some "why") = exDraftSession := by
  refine ⟨rfl, rfl, rfl⟩

/-- C8 amended: `approve_item` and `reject_item` with an id belonging to no
item of the session are silent no-ops: no error is raised, no fallback item
is fabricated, and every item of the session is left unchanged. -/
theorem unknown_id_silent_noop (s : ReviewSession) (item_id r t : String)
    (c : Option Dict) (reason : Option String)
    (h : s.get_by_id item_id = none) :
    s.approve_item item_id r t c = s ∧ s.reject_item item_id r t reason = s := by
  have hfind : s.items.find? (fun i => i.id == item_id) = none := h
  constructor
  · simp only [ReviewSession.approve_item, updateFirstById_not_found s.items item_id _ hfind]
  · simp only [ReviewSession.reject_item, updateFirstById_not_found s.items item_id _ hfind]

/-- C8 amended, witness: the no-op on the concrete one-item session. -/
theorem unknown_id_silent_noop_witness :
    exDraftSession.approve_item "zzz" "Max" "t9" none = exDraftSession
    ∧ exDraftSession.reject_item "zzz" "Max" "t9" (some "why") = exDraftSession :=
  unknown_id_silent_noop exDraftSession "zzz" "Max" "t9" none (some "why") rfl

/-! ### Claim C2 -/

/-- C2: when the session still has pending (draft) items, `export` fails with
the review-incomplete error carrying the current pending count; none of the
export sub-steps run (the assembled approved content exists only in the
complete case). The embedded `export` is a read-only function of the
session, as the code touches no item status. -/
theorem export_requires_complete (s : ReviewSession) (h : 0 < s.progress.pending) :
    MeetingPipeline.export' s
        = Except.error (ExportError.reviewIncomplete s.progress.pending)
    ∧ s.is_complete = false
    ∧ (∀ d : ExportData, MeetingPipeline.export' s ≠ Except.ok d) := by
  have hnc : s.is_complete = false := by
    cases hc : s.is_complete with
    | false => rfl
    | true =>
      have := (is_complete_iff_pending_zero s).mp hc
      omega
  refine ⟨?_, hnc, ?_⟩
  · simp [MeetingPipeline.export', hnc]
  · intro d hd
    simp [MeetingPipeline.export', hnc] at hd

/-- C2 witness: the session whose only item is a draft open question fails to
export with pending count 1. -/
theorem export_requires_complete_witness :
    0 < exDraftSession.progress.pending
    ∧ MeetingPipeline.export' exDraftSession
        = Except.error (ExportError.reviewIncomplete exDraftSession.progress.pending)
    ∧ exDraftSession.is_complete = false :=
  ⟨by decide,
   (export_requires_complete exDraftSession (by decide)).1,
   (export_requires_complete exDraftSession (by decide)).2.1⟩

/-! ### Claim C7 -/

/-- The percent computation as the specification words it:
`round(reviewed / total * 100)`, and 100 when `total == 0`. -/
def specRoundPercent (reviewed total : Nat) : Nat :=
  if total = 0 then 100 else (round ((reviewed : ℚ) / (total : ℚ) * 100)).toNat

/-- C7 counterexample: on the session with 2 of 3 items reviewed the code
computes `int(2 / 3 * 100) = 66` (binary64 truncation), while the claimed
`round(reviewed / total * 100)` is 67. -/
theorem progress_percent_rounding_counterexample :
    exMixedSession.progress.reviewed = 2
    ∧ exMixedSession.progress.total = 3
    ∧ exMixedSession.progress.percent = 66
    ∧ specRoundPercent exMixedSession.progress.reviewed exMixedSession.progress.total = 67
    ∧ exMixedSession.progress.percent
        ≠ specRoundPercent exMixedSession.progress.reviewed exMixedSession.progress.total := by
  have hround : specRoundPercent 2 3 = 67 := by
    simp only [specRoundPercent]
    norm_num
    rw [round_eq]
    norm_num
    decide
  have hlen : exMixedSession.items.length = 3 := rfl
  have hflen : (exMixedSession.items.filter (fun i => !(i.status == "draft"))).length = 2 := rfl
  have hperc : exMixedSession.progress.percent = 66 := by
    simp only [ReviewSession.progress, hlen, hflen]
    norm_num
    exact percent_two_thirds
  have h2 : exMixedSession.progress.reviewed = 2 := by decide
  have h3 : exMixedSession.progress.total = 3 := by decide
  refine ⟨h2, h3, hperc, ?_, ?_⟩
  · rw [h2, h3, hround]
  · rw [h2, h3, hround, hperc]
    decide

/-- C7 amended: `progress` reports `total` = number of items, `reviewed` =
number of non-draft items, `pending` = number of draft items (equivalently
`total - reviewed`), the counts of approved and rejected items, and
`percent` = `int(reviewed / total * 100)` evaluated in binary64 floating
point — truncation of the correctly rounded double computation, not
rounding — which always lies within one of the exact
`⌊reviewed / total * 100⌋` (it can fall one below it, see
`float_truncation_drop`), and is 100 when `total = 0`. -/
theorem progress_fields (s : ReviewSession) :
    s.progress.total = s.items.length
    ∧ s.progress.reviewed = (s.items.filter (fun i => !(i.status == "draft"))).length
    ∧ s.progress.pending = s.get_pending.length
    ∧ s.progress.reviewed + s.progress.pending = s.progress.total
    ∧ s.progress.approved = s.get_approved.length
    ∧ s.progress.rejected = s.get_rejected.length
    ∧ (s.progress.total = 0 → s.progress.percent = 100)
    ∧ (s.progress.total ≠ 0 →
        |(s.progress.percent : ℤ)
          - ⌊(s.progress.reviewed : ℚ) / (s.progress.total : ℚ) * 100⌋| ≤ 1) := by
  refine ⟨rfl, rfl, progress_pending_eq_get_pending s, ?_, rfl, rfl, ?_, ?_⟩
  · rw [progress_pending_eq_get_pending]
    have h := length_filter_not_add_filter s.items
    simp only [ReviewSession.progress, ReviewSession.get_pending]
    omega
  · intro h0
    simp only [ReviewSession.progress] at h0 ⊢
    simp [h0]
  · intro hne
    have htpos : 0 < s.items.length := by
      simp only [ReviewSession.progress] at hne
      omega
    have hrt := List.length_filter_le (fun i => !(i.status == "draft")) s.items
    obtain ⟨hnn, hb⟩ := floatPercentExpr_near
      ((s.items.filter (fun i => !(i.status == "draft"))).length) (s.items.length) htpos hrt
    have hbeq : (s.items.length == 0) = false := by
      simp only [beq_eq_false_iff_ne, ne_eq]
      omega
    simp only [ReviewSession.progress, hbeq, Bool.false_eq_true, if_false]
    rw [Int.toNat_of_nonneg hnn]
    exact hb

/-- C7 amended, witness: the within-one bound at the concrete session with 2
of 3 items reviewed. -/
theorem progress_fields_witness :
    exMixedSession.progress.total ≠ 0
    ∧ |(exMixedSession.progress.percent : ℤ)
        - ⌊(exMixedSession.progress.reviewed : ℚ)
            / (exMixedSession.progress.total : ℚ) * 100⌋| ≤ 1 :=
  ⟨by decide, (progress_fields exMixedSession).2.2.2.2.2.2.2 (by decide)⟩

/-! ### Claim C4 -/

/-- C4: decoding the encoding of a session reproduces it exactly — metadata,
item count and order, every per-item field, and the summary identification
(the hypothesis states that the summary alias of the session points at its last
summary-kind item, which is where every code path leaves it). -/
theorem save_load_roundtrip (s : ReviewSession)
    (hwf : s.summary_idx = lastSummaryIdx s.items) :
    ReviewSession.load s.save = Except.ok s := by
  have hred : ReviewSession.load s.save
      = Except.ok { s with summary_idx := lastSummaryIdx s.items } := by
    simp only [ReviewSession.load, ReviewSession.save, reqField, Option.getD_some,
      mapM_from_dict_to_dict]
    rfl
  rw [hred, ← hwf]

/-- C4 witness: the round trip on the concrete fully-reviewed session with a
summary item. -/
theorem save_load_roundtrip_witness :
    ReviewSession.load exFullSession.save = Except.ok exFullSession :=
  save_load_roundtrip exFullSession (by decide)

/-! ### Claim C9 -/

/-- A persisted session representation with the three required header fields
present but the `items` key absent. -/
def exNoItemsDict : SessionDict :=
  { meeting_id := some "m9"
    title := some "Broken"
    created_at := some "t0"
    progress := none
    items := none }

/-- An item representation whose `status` is not one of the three recognized
values. -/
def exBogusStatusItemDict : ItemDict :=
  { id := some "z1"
    kind := some "banana"
    status := some "exploded"
    original_data := some [("description", "x")]
    approved_data := none
    reviewed_by := none
    reviewed_at := none
    reject_reason := none }

/-- C9 counterexample: decoding a representation that lacks the `items` list
succeeds with an empty session instead of failing, and decoding an item with
an unrecognized `status`/`kind` value succeeds as well — neither triggers a
malformed-state error. -/
theorem decode_lenient_counterexample :
    exNoItemsDict.items = none
    ∧ ReviewSession.load exNoItemsDict
        = Except.ok
          { meeting_id := "m9", title := "Broken", created_at := "t0",
            items := [], summary_idx := none }
    ∧ ReviewableItem.from_dict exBogusStatusItemDict
        = Except.ok
          { id := "z1", kind := "banana", status := "exploded",
            original_data := [("description", "x")], approved_data := none,
            reviewed_by := none, reviewed_at := none, reject_reason := none } := by
  refine ⟨rfl, rfl, rfl⟩

/-- C9 amended: decode fails (with a `KeyError`) when `meeting_id`, `title` or
`created_at` is absent, and per item when `id`, `kind`, `status` or
`original_data` is absent, never yielding a session in those cases; but an
absent `items` list silently decodes to an empty session, and `status` /
`kind` values are accepted without any validation, with only
`approved_data`, `reviewed_by`, `reviewed_at`, `reject_reason` defaulting. -/
theorem decode_requirements :
    (∀ d : SessionDict, (d.meeting_id = none ∨ d.title = none ∨ d.created_at = none) →
        ∃ e, ReviewSession.load d = Except.error e)
    ∧ (∀ d : ItemDict,
        (d.id = none ∨ d.kind = none ∨ d.status = none ∨ d.original_data = none) →
        ∃ e, ReviewableItem.from_dict d = Except.error e)
    ∧ (∀ d : ItemDict, ∀ idv kv stv odv, d.id = some idv → d.kind = some kv →
        d.status = some stv → d.original_data = some odv →
        ReviewableItem.from_dict d = Except.ok
          { id := idv, kind := kv, status := stv, original_data := odv,
            approved_data := d.approved_data, reviewed_by := d.reviewed_by,
            reviewed_at := d.reviewed_at, reject_reason := d.reject_reason })
    ∧ (∀ d : SessionDict, ∀ m ti ca, d.meeting_id = some m → d.title = some ti →
        d.created_at = some ca → d.items = none →
        ReviewSession.load d = Except.ok
          { meeting_id := m, title := ti, created_at := ca,
            items := [], summary_idx := none }) := by
  refine ⟨?_, ?_, ?_, ?_⟩
  · intro d h
    rcases d with ⟨mid, ti, ca, pr, its⟩
    cases mid with
    | none => exact ⟨"KeyError: meeting_id", rfl⟩
    | some m =>
      cases ti with
      | none => exact ⟨"KeyError: title", rfl⟩
      | some tv =>
        cases ca with
        | none => exact ⟨"KeyError: created_at", rfl⟩
        | some cv => simp at h
  · intro d h
    rcases d with ⟨di, dk, dst, dod, dad, drb, dra, drr⟩
    cases dk with
    | none => exact ⟨"KeyError: kind", rfl⟩
    | some kv =>
      cases dod with
      | none => exact ⟨"KeyError: original_data", rfl⟩
      | some ov =>
        cases di with
        | none => exact ⟨"KeyError: id", rfl⟩
        | some iv =>
          cases dst with
          | none => exact ⟨"KeyError: status", rfl⟩
          | some sv => simp at h
  · intro d idv kv stv odv h1 h2 h3 h4
    rcases d with ⟨di, dk, dst, dod, dad, drb, dra, drr⟩
    simp only at h1 h2 h3 h4
    subst h1; subst h2; subst h3; subst h4
    rfl
  · intro d m ti ca h1 h2 h3 h4
    rcases d with ⟨mid, dti, dca, pr, its⟩
    simp only at h1 h2 h3 h4
    subst h1; subst h2; subst h3; subst h4
    rfl

/-- C9 amended, witness: a representation missing `title` fails with a
`KeyError`, and the lenient cases at the concrete inputs. -/
theorem decode_requirements_witness :
    (∃ e, ReviewSession.load
        { meeting_id := some "m9", title := none, created_at := some "t0",
          progress := none, items := none } = Except.error e)
    ∧ (∃ e, ReviewableItem.from_dict
        { id := some "z1", kind := some "action_item", status := none,
          original_data := some [], approved_data := none, reviewed_by := none,
          reviewed_at := none, reject_reason := none } = Except.error e)
    ∧ ReviewableItem.from_dict exBogusStatusItemDict
        = Except.ok
          { id := "z1", kind := "banana", status := "exploded",
            original_data := [("description", "x")], approved_data := none,
            reviewed_by := none, reviewed_at := none, reject_reason := none }
    ∧ ReviewSession.load exNoItemsDict
        = Except.ok
          { meeting_id := "m9", title := "Broken", created_at := "t0",
            items := [], summary_idx := none } :=
  ⟨decode_requirements.1 _ (Or.inr (Or.inl rfl)),
   decode_requirements.2.1 _ (Or.inr (Or.inr (Or.inl rfl))),
   decode_requirements.2.2.1 exBogusStatusItemDict "z1" "banana" "exploded"
     [("description", "x")] rfl rfl rfl rfl,
   decode_requirements.2.2.2 exNoItemsDict "m9" "Broken" "t0" rfl rfl rfl rfl⟩

/-! ### Claim C10 -/

/-- C10: an analysis whose `summary` key is present but empty (falsy) is
ingested exactly like one with no `summary` key: no summary item is
created, the summary alias of the session is unchanged, and the item count grows
only by the other categories. -/
theorem empty_summary_ignored (s : ReviewSession) (a : Analysis) (fresh : Nat → String)
    (h : a.summary = some "") :
    s.add_from_analysis a fresh
        = s.add_from_analysis
            { summary := none, action_items := a.action_items,
              decisions := a.decisions, open_questions := a.open_questions } fresh
    ∧ (s.add_from_analysis a fresh).summary_idx = s.summary_idx
    ∧ ((s.add_from_analysis a fresh).items.filter (fun i => i.kind == "summary")).length
        = (s.items.filter (fun i => i.kind == "summary")).length
    ∧ (s.add_from_analysis a fresh).items.length
        = s.items.length + (a.action_items.getD []).length
          + (a.decisions.getD []).length + (a.open_questions.getD []).length := by
  rcases a with ⟨asum, aai, adec, aq⟩
  simp only at h
  subst h
  have hfal : pyTruthyStr (some "") = false := rfl
  refine ⟨rfl, ?_, ?_, ?_⟩
  · simp [ReviewSession.add_from_analysis, hfal]
  · simp only [ReviewSession.add_from_analysis, hfal, if_false, Bool.false_eq_true,
      List.filter_append]
    have hsum : ∀ kind, kind ≠ "summary" → ∀ base,
        (mkKindItems kind (Option.getD (α := List Dict) aai []) fresh base).filter
            (fun i => i.kind == "summary") = [] ∧
        (mkKindItems kind (Option.getD (α := List Dict) adec []) fresh base).filter
            (fun i => i.kind == "summary") = [] ∧
        (mkKindItems kind (Option.getD (α := List Dict) aq []) fresh base).filter
            (fun i => i.kind == "summary") = [] := by
      intro kind hk base
      refine ⟨?_, ?_, ?_⟩ <;>
        · rw [List.filter_eq_nil_iff]
          intro i hi
          have := mem_mkKindItems_kind _ _ _ _ _ hi
          simp [this, hk]
    rw [(hsum "action_item" (by decide) _).1, (hsum "decision" (by decide) _).2.1,
      (hsum "open_question" (by decide) _).2.2]
    simp
  · simp only [ReviewSession.add_from_analysis, hfal, List.length_append,
      length_mkKindItems]
    simp only [Bool.false_eq_true, if_false, List.length_nil]
    omega

/-- C10 witness: ingesting an analysis with an empty-string summary and one
action item into the empty session yields one item and no summary. -/
theorem empty_summary_ignored_witness :
    ((ReviewSession.init "m" "T" "t0").add_from_analysis
        { summary := some "", action_items := some [[("description", "x")]],
          decisions := none, open_questions := none } (fun n => toString n)).summary_idx
      = (ReviewSession.init "m" "T" "t0").summary_idx
    ∧ ((ReviewSession.init "m" "T" "t0").add_from_analysis
        { summary := some "", action_items := some [[("description", "x")]],
          decisions := none, open_questions := none } (fun n => toString n)).items.length
      = 1 :=
  ⟨(empty_summary_ignored (ReviewSession.init "m" "T" "t0")
      { summary := some "", action_items := some [[("description", "x")]],
        decisions := none, open_questions := none } (fun n => toString n) rfl).2.1,
   (empty_summary_ignored (ReviewSession.init "m" "T" "t0")
      { summary := some "", action_items := some [[("description", "x")]],
        decisions := none, open_questions := none } (fun n => toString n) rfl).2.2.2⟩

/-! ### Claim C3 -/

theorem mem_filter_map_data (l : List ReviewableItem) (p : ReviewableItem → Bool) (d : Dict) :
    (d ∈ (l.filter p).map ReviewableItem.data)
      ↔ ∃ i, i ∈ l ∧ p i = true ∧ ReviewableItem.data i = d := by
  constructor
  · intro h
    rcases List.mem_map.mp h with ⟨i, hi, rfl⟩
    rcases List.mem_filter.mp hi with ⟨hmem, hp⟩
    exact ⟨i, hmem, hp, rfl⟩
  · rintro ⟨i, hmem, hp, rfl⟩
    exact List.mem_map.mpr ⟨i, List.mem_filter.mpr ⟨hmem, hp⟩, rfl⟩

/-- C3: every export accessor returns exactly the `data` (current data:
approved data when truthy, else original) of the items of its kind with
status `approved`, in item order (each accessor output is a sublist of the
per-item data in item order); no draft or rejected item contributes. The
summary accessor goes through the summary alias of the session, so the claim
needs the alias to point at the last summary-kind item (as every code path
leaves it) and the session to hold at most one summary item (as single
ingestion guarantees). -/
theorem export_accessors_only_approved (s : ReviewSession)
    (hwf : s.summary_idx = lastSummaryIdx s.items)
    (hone : (s.items.filter (fun i => i.kind == "summary")).length ≤ 1) :
    (∀ d, d ∈ s.get_approved_action_items
      ↔ ∃ i, i ∈ s.items ∧ i.kind = "action_item" ∧ i.status = "approved"
          ∧ ReviewableItem.data i = d)
    ∧ List.Sublist s.get_approved_action_items (s.items.map ReviewableItem.data)
    ∧ (∀ d, d ∈ s.get_approved_decisions
      ↔ ∃ i, i ∈ s.items ∧ i.kind = "decision" ∧ i.status = "approved"
          ∧ ReviewableItem.data i = d)
    ∧ List.Sublist s.get_approved_decisions (s.items.map ReviewableItem.data)
    ∧ (∀ d, d ∈ ((s.get_by_kind "open_question").filter
          (fun i => i.status == "approved")).map ReviewableItem.data
      ↔ ∃ i, i ∈ s.items ∧ i.kind = "open_question" ∧ i.status = "approved"
          ∧ ReviewableItem.data i = d)
    ∧ List.Sublist (((s.get_by_kind "open_question").filter
          (fun i => i.status == "approved")).map ReviewableItem.data)
        (s.items.map ReviewableItem.data)
    ∧ (∀ t, s.get_approved_summary = some t
      ↔ ∃ i, i ∈ s.items ∧ i.kind = "summary" ∧ i.status = "approved"
          ∧ Dict.lookup (ReviewableItem.data i) "text" = some t) := by
  refine ⟨?_, ?_, ?_, ?_, ?_, ?_, ?_⟩
  · intro d
    rw [ReviewSession.get_approved_action_items, mem_filter_map_data]
    constructor
    · rintro ⟨i, hmem, hp, rfl⟩
      rw [Bool.and_eq_true, beq_iff_eq, beq_iff_eq] at hp
      exact ⟨i, hmem, hp.1, hp.2, rfl⟩
    · rintro ⟨i, hmem, hk, hs, rfl⟩
      exact ⟨i, hmem, by rw [Bool.and_eq_true, beq_iff_eq, beq_iff_eq]; exact ⟨hk, hs⟩, rfl⟩
  · exact (List.filter_sublist s.items).map ReviewableItem.data
  · intro d
    rw [ReviewSession.get_approved_decisions, mem_filter_map_data]
    constructor
    · rintro ⟨i, hmem, hp, rfl⟩
      rw [Bool.and_eq_true, beq_iff_eq, beq_iff_eq] at hp
      exact ⟨i, hmem, hp.1, hp.2, rfl⟩
    · rintro ⟨i, hmem, hk, hs, rfl⟩
      exact ⟨i, hmem, by rw [Bool.and_eq_true, beq_iff_eq, beq_iff_eq]; exact ⟨hk, hs⟩, rfl⟩
  · exact (List.filter_sublist s.items).map ReviewableItem.data
  · intro d
    rw [ReviewSession.get_by_kind, mem_filter_map_data]
    constructor
    · rintro ⟨i, hmem, hp, rfl⟩
      rcases List.mem_filter.mp hmem with ⟨hmem', hk⟩
      exact ⟨i, hmem', by simpa using hk, by simpa using hp, rfl⟩
    · rintro ⟨i, hmem, hk, hs, rfl⟩
      exact ⟨i, List.mem_filter.mpr ⟨hmem, by simpa using hk⟩, by simpa using hs, rfl⟩
  · exact ((List.filter_sublist _).trans (List.filter_sublist s.items)).map ReviewableItem.data
  · intro t
    constructor
    · intro h
      simp only [ReviewSession.get_approved_summary, ReviewSession.summaryItem] at h
      cases hsi : s.summary_idx with
      | none => rw [hsi] at h; cases h
      | some n =>
        rw [hsi] at h
        simp only [Option.some_bind] at h
        cases hg : s.items[n]? with
        | none => rw [hg] at h; cases h
        | some it =>
          rw [hg] at h
          have h' : (if (it.status == "approved") = true
              then Dict.lookup it.data "text" else none) = some t := h
          have hmem : it ∈ s.items := by
            obtain ⟨hlt, rfl⟩ := List.getElem?_eq_some.mp hg
            exact List.getElem_mem hlt
          have hkind : it.kind = "summary" := by
            rw [hwf] at hsi
            obtain ⟨j, hj, hjk⟩ := lastSummaryIdx_some s.items n hsi
            rw [hg] at hj
            cases hj
            exact hjk
          cases hst : it.status == "approved" with
          | false => rw [hst] at h'; cases h'
          | true =>
            rw [hst] at h'
            rw [if_pos rfl] at h'
            exact ⟨it, hmem, hkind, by simpa using hst, h'⟩
    · rintro ⟨i, hi, hk, hs, hl⟩
      have hsome : ∃ n, lastSummaryIdx s.items = some n := by
        cases hln : lastSummaryIdx s.items with
        | some n => exact ⟨n, rfl⟩
        | none => exact absurd hk (lastSummaryIdx_none s.items hln i hi)
      obtain ⟨n, hn⟩ := hsome
      obtain ⟨j, hj, hjk⟩ := lastSummaryIdx_some s.items n hn
      have hjmem : j ∈ s.items := by
        obtain ⟨hlt, rfl⟩ := List.getElem?_eq_some.mp hj
        exact List.getElem_mem hlt
      have hij : i = j := by
        refine mem_of_length_le_one _ hone i ?_ j ?_
        · exact List.mem_filter.mpr ⟨hi, by simpa using hk⟩
        · exact List.mem_filter.mpr ⟨hjmem, by simpa using hjk⟩
      subst hij
      simp only [ReviewSession.get_approved_summary, ReviewSession.summaryItem, hwf, hn,
        Option.some_bind, hj]
      have hst : (i.status == "approved") = true := by simpa using hs
      rw [hst]
      exact hl

/-- C3 witness: on the concrete fully-reviewed session the hypotheses hold,
the summary accessor returns the approved summary text, and the action-item
accessor output is a sublist of the per-item data in item order. -/
theorem export_accessors_only_approved_witness :
    exFullSession.summary_idx = lastSummaryIdx exFullSession.items
    ∧ (exFullSession.items.filter (fun i => i.kind == "summary")).length ≤ 1
    ∧ exFullSession.get_approved_summary = some "All good"
    ∧ List.Sublist exFullSession.get_approved_action_items
        (exFullSession.items.map ReviewableItem.data) := by
  refine ⟨by decide, by decide, ?_, ?_⟩
  · exact ((export_accessors_only_approved exFullSession (by decide)
        (by decide)).2.2.2.2.2.2 "All good").mpr
      ⟨exApprovedSummary, by decide, rfl, rfl, rfl⟩
  · exact (export_accessors_only_approved exFullSession (by decide) (by decide)).2.1
